import Mathlib

/-!
# AniSchedule: the dub-schedule update pass of `src/index.js`

A shallow embedding of `fetchAiringSchedule`, `fetchDubSchedule` and
`updateDubFeed`.

Modelling conventions.

* A JavaScript number is a double. The fields that hold years, weeks, episode
  counts and timestamps hold integers, and the model keeps the integer as an
  `Int`. Comparison of two such numbers is exact. The one addition the code
  performs on data, `episodeNumber + 1`, is `jsAddOne`: exact from `-2^53` up
  to `2^53 - 1`, rounded to the nearest double (ties to even) outside.
* Years and weeks come from the calendar helpers and stay far below `2^53`,
  where the increments of lines 93 and 96 are exact.
* A date is its timestamp in milliseconds. `new Date(t)` is an Invalid Date
  when `t` lies outside `±8.64e15`, and a comparison with an Invalid Date is
  false.
* A record (raw timetable record or custom dub) is an `Entry`; `null` is
  `none`.
* The helpers imported from `./utils/util.js` (`getWeeksInYear`,
  `calculateWeeksToFetch`, `past`, `loadJSON`) are not part of the source
  file; what they return is taken as a parameter.
* `new Date()` is read once per iteration of the custom-dub loop; the reading
  of the `i`-th iteration is `clock i`.
* `JSON.stringify` yields the JSON document of its argument; two documents
  have the same text exactly when they are equal.
* `process.exit(1)` ends the run with exit code 1.
* The `while` loop is run with fuel; `outOfFuel` means the fuel ran out before
  the loop condition became false.
-/

namespace AniSchedule

/-! ## Data model -/

/-- A schedule record: the fields of a timetable record or custom dub that the
code reads or writes, plus `title` as a field it never touches. -/
structure Entry where
  route : String
  title : String
  episodeNumber : Int
  episodes : Option Int
  episodeDate : Int
  airingStatus : String
deriving DecidableEq

/-- What `await res.json()` does with the body of a reply: it throws on a body
that is not JSON (`invalid`), and otherwise delivers `null` or the array of
records. -/
inductive Body where
  | invalid
  | null
  | records (items : List Entry)
deriving DecidableEq

/-- What `fetchAiringSchedule` inspects of a reply of the remote endpoint:
`res.ok`, `res.status` and the body read by `res.json()`. -/
structure HttpResponse where
  ok : Bool
  status : Nat
  json : Body
deriving DecidableEq

/-- What `await fetch(...)` does: it throws (`networkError`) or delivers a
reply. -/
inductive Reply where
  | networkError
  | response (res : HttpResponse)
deriving DecidableEq

/-- The result of `calculateWeeksToFetch()`. -/
structure Window where
  startYear : Int
  startWeek : Int
  endYear : Int
  endWeek : Int
deriving DecidableEq

/-- The variables the fetch loop updates: the weeks requested so far (line 85
logs each one before it is requested) and the value of the `airingLists`
store. -/
structure LoopState where
  fetched : List (Int × Int)
  airingLists : List Entry
deriving DecidableEq

/-- How the fetch loop ends: the fuel runs out, the process exits inside
`fetchAiringSchedule`, or the loop condition becomes false. -/
inductive LoopEnd where
  | outOfFuel
  | exit (code : Nat) (st : LoopState)
  | done (st : LoopState)
deriving DecidableEq

/-! ## `fetchAiringSchedule` (lines 7-25) -/

/-- Lines 7-25. A thrown `fetch` or `res.json()` reaches the `catch` of line
21, which ends the process with code 1. A reply that is not `ok` gives `null`
when its status is 404 and ends the process with code 1 otherwise (lines
15-19). An `ok` reply gives its body (line 20). -/
def fetchAiringSchedule : Reply → Except Nat (Option (List Entry))
  | .networkError => .error 1
  | .response res =>
    if !res.ok then
      if res.status = 404 then .ok none
      else .error 1
    else
      match res.json with
      | .invalid => .error 1
      | .null => .ok none
      | .records items => .ok (some items)

/-! ## The fetch loop of `fetchDubSchedule` (lines 80-98) -/

/-- Lines 87-90: the body of `if (fetchedData)`. The filter tests every item
of the response against the store as it was before this response. -/
def fetchStep (lists : List Entry) (fetchedData : Option (List Entry)) : List Entry :=
  match fetchedData with
  | some data =>
    let newEntries :=
      data.filter (fun item => !lists.any (fun existing => existing.route == item.route))
    lists ++ newEntries
  | none => lists

/-- Lines 84-98: the `while` loop, from the pointer `(year, week)`. The reply
of the endpoint for a week is `server year week`. -/
def fetchLoop (getWeeksInYear : Int → Int) (server : Int → Int → Reply)
    (endYear endWeek : Int) : Nat → Int → Int → LoopState → LoopEnd
  | 0, _, _, _ => .outOfFuel
  | fuel + 1, year, week, st =>
    if year < endYear ∨ (year = endYear ∧ week ≤ endWeek) then
      match fetchAiringSchedule (server year week) with
      | .error code => .exit code ⟨st.fetched ++ [(year, week)], st.airingLists⟩
      | .ok fetchedData =>
        let st' : LoopState :=
          ⟨st.fetched ++ [(year, week)], fetchStep st.airingLists fetchedData⟩
        let week' := week + 1
        if week' > getWeeksInYear year then
          fetchLoop getWeeksInYear server endYear endWeek fuel (year + 1) 1 st'
        else
          fetchLoop getWeeksInYear server endYear endWeek fuel year week' st'
    else .done st

/-- The store after the responses `responses` have been handled in order,
starting from the empty store of line 73. -/
def accumulate (responses : List (Option (List Entry))) : List Entry :=
  responses.foldl fetchStep []

/-- The records of all responses in fetch order, `null` counting as empty. -/
def allRecords (responses : List (Option (List Entry))) : List Entry :=
  (responses.map (fun r => r.getD [])).flatten

/-- Lexicographic order on week pointers `(year, week)`. -/
def ptrLt (a b : Int × Int) : Prop :=
  a.1 < b.1 ∨ (a.1 = b.1 ∧ a.2 < b.2)

/-- Lexicographic order on week pointers `(year, week)`, non-strict. -/
def ptrLe (a b : Int × Int) : Prop :=
  a.1 < b.1 ∨ (a.1 = b.1 ∧ a.2 ≤ b.2)

instance (a b : Int × Int) : Decidable (ptrLt a b) := by
  unfold ptrLt; infer_instance

instance (a b : Int × Int) : Decidable (ptrLe a b) := by
  unfold ptrLe; infer_instance

/-- Whether a reply makes `fetchAiringSchedule` end the process. -/
def isFatal (r : Reply) : Bool :=
  match fetchAiringSchedule r with
  | .error _ => true
  | .ok _ => false

/-- The value `fetchAiringSchedule` returns for a reply that is not fatal. -/
def replyData (r : Reply) : Option (List Entry) :=
  match fetchAiringSchedule r with
  | .error _ => none
  | .ok fetchedData => fetchedData

/-- The end of the loop when the weeks it goes through are `weeks`, in that
order: each week is requested and handled, and the first fatal reply ends the
process. -/
def runWeeks (server : Int → Int → Reply) : List (Int × Int) → LoopState → LoopEnd
  | [], st => .done st
  | p :: rest, st =>
    match fetchAiringSchedule (server p.1 p.2) with
    | .error code => .exit code ⟨st.fetched ++ [p], st.airingLists⟩
    | .ok fetchedData =>
      runWeeks server rest ⟨st.fetched ++ [p], fetchStep st.airingLists fetchedData⟩

/-! ## The override pass of `fetchDubSchedule` (lines 100-126) -/

/-- Whether `new Date(t)` is a valid date: the time value lies within
`±8.64e15` milliseconds. -/
def validTime (t : Int) : Bool :=
  decide (t.natAbs ≤ 8640000000000000)

/-- Line 105: `new Date(dub.episodeDate) < new Date()`, with `now` the reading
of the clock. An Invalid Date compares false. -/
def isOverdue (now : Int) (dub : Entry) : Bool :=
  validTime dub.episodeDate && decide (dub.episodeDate < now)

/-- JavaScript `n + 1` on an integer-valued double `n`. The sum is exact when
`-2^53 ≤ n < 2^53`. Beyond, `n` is even and `n + 1` is not a double: below
`2^54` in absolute value it lies halfway between `n` and `n + 2` and rounds to
the one whose significand is even; from `2^54` on it rounds to `n`. -/
def jsAddOne (n : Int) : Int :=
  if -9007199254740992 ≤ n ∧ n < 9007199254740992 then n + 1
  else if n.natAbs < 18014398509481984 ∧ n % 4 = 2 then n + 2
  else n

/-- Lines 107-109: the three assignments made to an overdue custom dub. -/
def advanceDub (past : Int → Nat → Bool → Int) (dub : Entry) : Entry :=
  { dub with
    episodeDate := past dub.episodeDate 1 false
    episodeNumber := jsAddOne dub.episodeNumber
    airingStatus := "aired" }

/-- Lines 104-111: the `for ... of` loop; `i` counts the iterations. -/
def advanceLoop (past : Int → Nat → Bool → Int) (clock : Nat → Int) :
    Nat → List Entry → List Entry
  | _, [] => []
  | i, dub :: rest =>
    (if isOverdue (clock i) dub then advanceDub past dub else dub)
      :: advanceLoop past clock (i + 1) rest

/-- Lines 102-112: the loop runs when `customDubs?.length` is truthy. -/
def advanceCustomDubs (past : Int → Nat → Bool → Int) (clock : Nat → Int)
    (customDubs : List Entry) : List Entry :=
  if customDubs.length ≠ 0 then advanceLoop past clock 0 customDubs else customDubs

/-- JavaScript truthiness of a number-or-null: `null` and `0` are falsy. -/
def jsTruthy : Option Int → Bool
  | none => false
  | some n => n != 0

/-- JavaScript `a > b` for a number `a` and a number-or-null `b`: `null`
converts to `0`. -/
def jsGt (a : Int) (b : Option Int) : Bool :=
  decide (a > b.getD 0)

/-- Line 115: `dub.episodes && dub.episodeNumber > dub.episodes`. -/
def exceedsEpisodeCount (dub : Entry) : Bool :=
  jsTruthy dub.episodes && jsGt dub.episodeNumber dub.episodes

/-- Lines 114-120: the filter callback returns `false` when line 115 holds and
`true` otherwise. -/
def filterCustomDubs (customDubs : List Entry) : List Entry :=
  customDubs.filter (fun dub => if exceedsEpisodeCount dub then false else true)

/-- Lines 100-120: `customDubs` after the advance loop and the filter. -/
def overridePass (past : Int → Nat → Bool → Int) (clock : Nat → Int)
    (customDubs : List Entry) : List Entry :=
  filterCustomDubs (advanceCustomDubs past clock customDubs)

/-- A JSON value that is not an array or object. -/
inductive JsonAtom where
  | null
  | num (n : Int)
  | str (s : String)
deriving DecidableEq

/-- The JSON document of one record: its keys with their values. -/
def entryJson (e : Entry) : List (String × JsonAtom) :=
  [("route", .str e.route), ("title", .str e.title), ("episodeNumber", .num e.episodeNumber),
   ("episodes", match e.episodes with
      | some n => .num n
      | none => .null),
   ("episodeDate", .num e.episodeDate), ("airingStatus", .str e.airingStatus)]

/-- The document `JSON.stringify` prints for a list of records. -/
def jsonStringify (entries : List Entry) : List (List (String × JsonAtom)) :=
  entries.map entryJson

/-- What lines 100-126 leave behind: the `customDubs` variable and, when
`saveJSON` ran, the list written to `custom-dubs.json`. -/
structure OverrideResult where
  customDubs : List Entry
  saved : Option (List Entry)
deriving DecidableEq

/-- Lines 100-125: clone, advance loop, filter, and the write of line 124
gated by the comparison of line 122. -/
def overrideStage (past : Int → Nat → Bool → Int) (clock : Nat → Int)
    (loaded : List Entry) : OverrideResult :=
  let exactCustomDubs := loaded
  let customDubs := filterCustomDubs (advanceCustomDubs past clock loaded)
  if jsonStringify customDubs ≠ jsonStringify exactCustomDubs then
    ⟨customDubs, some customDubs⟩
  else ⟨customDubs, none⟩

/-! ## `fetchDubSchedule` (lines 57-145) -/

/-- Everything `fetchDubSchedule` reads from outside. -/
structure Inputs where
  token : Option String
  currentSchedule : List Entry
  weeks : Window
  getWeeksInYear : Int → Int
  server : Int → Int → Reply
  customDubs : List Entry
  clock : Nat → Int
  past : Int → Nat → Bool → Int

/-- What a run of `fetchDubSchedule` that returns leaves behind. -/
structure Run where
  fetched : List (Int × Int)
  timetables : List Entry
  savedCustomDubs : Option (List Entry)
  changes : List String
deriving DecidableEq

/-- How a run of `fetchDubSchedule` ends. -/
inductive Outcome where
  | outOfFuel
  | exit (code : Nat)
  | returned (run : Run)
deriving DecidableEq

/-- JavaScript truthiness of `process.env.ANIMESCHEDULE_TOKEN`. -/
def tokenTruthy : Option String → Bool
  | none => false
  | some s => s != ""

/-- Lines 57-145. `changes` is created empty on line 58 and returned on line
144; no statement of the function adds to it. The `if (timetables)` of line
129 always takes its first branch, since an array is truthy; the body of that
branch (lines 130-134) and lines 141-142 hold comments only. -/
def fetchDubSchedule (inp : Inputs) (fuel : Nat) : Outcome :=
  let changes : List String := []
  if !tokenTruthy inp.token then .exit 1
  else
    match fetchLoop inp.getWeeksInYear inp.server inp.weeks.endYear inp.weeks.endWeek fuel
        inp.weeks.startYear inp.weeks.startWeek ⟨[], []⟩ with
    | .outOfFuel => .outOfFuel
    | .exit code _ => .exit code
    | .done st =>
      let overrides := overrideStage inp.past inp.clock inp.customDubs
      let timetables := st.airingLists ++ overrides.customDubs
      .returned ⟨st.fetched, timetables, overrides.saved, changes⟩

/-! ## `updateDubFeed` (lines 148-166) -/

/-- An exception thrown by the JavaScript runtime. -/
inductive JsError where
  | referenceError (name : String)
deriving DecidableEq

/-- The names bound at module level: the imports of lines 3-4 and the
declarations of lines 7, 27-29, 57, 148 and 169. -/
def moduleScope : List String :=
  ["calculateWeeksToFetch", "dayTimeMatch", "isDSTTransitionMonth", "getDSTStartEndDates",
   "delay", "daysAgo", "getCurrentDay", "fixTime", "getCurrentYearAndWeek", "getWeeksInYear",
   "loadJSON", "past", "saveJSON", "weeksDifference", "durationMap", "mediaTypeMap", "path",
   "fetchAiringSchedule", "previousWeekTimetables", "fetchInProgress", "fetchPreviousWeek",
   "fetchDubSchedule", "updateDubFeed", "args"]

/-- The names bound inside `updateDubFeed`: its parameter and the
declarations of lines 149-154. -/
def updateDubFeedScope : List String :=
  ["optSchedule", "changes", "schedule", "exactFeed", "existingFeed", "removedEpisodes",
   "modifiedEpisodes"]

/-- Reading `name.length`. An identifier that no enclosing scope binds throws
a `ReferenceError`; a local array gives its length; any other bound name has
no length that is modelled. -/
def lengthOf (arrays : List (String × Nat)) (bound : List String) (name : String) :
    Except JsError (Option Nat) :=
  match arrays.lookup name with
  | some n => .ok (some n)
  | none => if name ∈ bound then .ok none else .error (.referenceError name)

/-- JavaScript `x > 0` for a length that may be undefined. -/
def jsPositive : Option Nat → Bool
  | some n => decide (n > 0)
  | none => false

/-- Lines 148-166. Lines 156-157 are comments; no statement declares
`newEpisodes`. The condition of line 159 is evaluated left to right and
starts by reading `newEpisodes`. Both branches only log, and line 165 returns
`changes`. -/
def updateDubFeed (optSchedule : Option (List Entry)) (scheduleFile exactFeed : List Entry) :
    Except JsError (List String) := do
  let changes : List String := []
  let schedule := optSchedule.getD scheduleFile
  let existingFeed := exactFeed
  let removedEpisodes : List Entry := []
  let modifiedEpisodes : List Entry := []
  let arrays : List (String × Nat) :=
    [("changes", changes.length), ("schedule", schedule.length),
     ("exactFeed", exactFeed.length), ("existingFeed", existingFeed.length),
     ("removedEpisodes", removedEpisodes.length), ("modifiedEpisodes", modifiedEpisodes.length)]
  let bound := updateDubFeedScope ++ moduleScope
  let newLen ← lengthOf arrays bound "newEpisodes"
  let modLen ← lengthOf arrays bound "modifiedEpisodes"
  let remLen ← lengthOf arrays bound "removedEpisodes"
  if jsPositive newLen || jsPositive modLen || jsPositive remLen then
    return changes
  else
    return changes

/-! ## Spec-side predicates -/

/-- An override is finished, in the words of the spec: its total `episodes` is
known and its `episodeNumber` is greater. -/
def Finished (dub : Entry) : Prop :=
  ∃ n : Int, dub.episodes = some n ∧ n < dub.episodeNumber

/-- An override is finished and its known total is not zero. -/
def FinishedNonzero (dub : Entry) : Prop :=
  ∃ n : Int, dub.episodes = some n ∧ n ≠ 0 ∧ n < dub.episodeNumber

/-- A safe integer, as `Number.isSafeInteger` has it: of absolute value below
`2^53`. -/
def SafeInteger (n : Int) : Prop :=
  -9007199254740992 < n ∧ n < 9007199254740992

/-- A timestamp that is a valid date: of absolute value at most `8.64e15`. -/
def ValidDate (t : Int) : Prop :=
  -8640000000000000 ≤ t ∧ t ≤ 8640000000000000

instance (n : Int) : Decidable (SafeInteger n) := by
  unfold SafeInteger; infer_instance

instance (t : Int) : Decidable (ValidDate t) := by
  unfold ValidDate; infer_instance

/-- The record an overdue override becomes in the words of the spec, field by
field: `episodeNumber` is the old value plus 1. -/
def advancedRecord (past : Int → Nat → Bool → Int) (dub : Entry) : Entry :=
  ⟨dub.route, dub.title, dub.episodeNumber + 1, dub.episodes,
    past dub.episodeDate 1 false, "aired"⟩

/-! ## Example inputs -/

/-- A reply with status 200 whose body is the array `items`. -/
def okReply (items : List Entry) : Reply :=
  .response ⟨true, 200, .records items⟩

/-- A reply that is not `ok`, with the given status and no usable body. -/
def errorReply (status : Nat) : Reply :=
  .response ⟨false, status, .invalid⟩

/-- The inputs of the spec example: a token, an empty prior snapshot, a
window of the single week 2024/1 whose response holds the one record `r1`,
and no overrides. -/
def exampleInputs : Inputs where
  token := some "token"
  currentSchedule := []
  weeks := ⟨2024, 1, 2024, 1⟩
  getWeeksInYear := fun _ => 52
  server := fun _ _ => okReply [⟨"r1", "Title", 1, none, 100, "aired"⟩]
  customDubs := []
  clock := fun _ => 50
  past := fun t n _ => t + 7 * n

/-- The inputs `exampleInputs` with one override for the fetched route `r1`,
not overdue and not finished. -/
def overlapInputs : Inputs :=
  { exampleInputs with customDubs := [⟨"r1", "Custom", 5, some 12, 200, "upcoming"⟩] }

/-- The inputs `exampleInputs` with one overdue override. -/
def overdueInputs : Inputs :=
  { exampleInputs with customDubs := [⟨"c1", "Custom", 5, some 12, 20, "upcoming"⟩] }

/-- A server for the weeks of 2024: week 2 answers 404, week 3 answers 500,
every other week answers with the one record `r1`. -/
def flakyServer : Int → Int → Reply :=
  fun _ w =>
    if w = 2 then errorReply 404
    else if w = 3 then errorReply 500
    else okReply [⟨"r1", "Title", 1, none, 100, "aired"⟩]

/-- A server whose week 2 answers 404 and whose other weeks answer with the
one record `r1`. -/
def gapServer : Int → Int → Reply :=
  fun _ w =>
    if w = 2 then errorReply 404 else okReply [⟨"r1", "Title", 1, none, 100, "aired"⟩]

/-! ## Lemmas on the fetch loop -/

theorem fetchLoop_stop (W : Int → Int) (server : Int → Int → Reply)
    (ey ew : Int) (fuel : Nat) (y w : Int) (st : LoopState)
    (hcond : ¬ (y < ey ∨ (y = ey ∧ w ≤ ew))) :
    fetchLoop W server ey ew (fuel + 1) y w st = .done st := by
  simp only [fetchLoop, if_neg hcond]

theorem fetchLoop_fatal (W : Int → Int) (server : Int → Int → Reply)
    (ey ew : Int) (fuel : Nat) (y w : Int) (st : LoopState) (code : Nat)
    (hcond : y < ey ∨ (y = ey ∧ w ≤ ew))
    (hreply : fetchAiringSchedule (server y w) = .error code) :
    fetchLoop W server ey ew (fuel + 1) y w st
      = .exit code ⟨st.fetched ++ [(y, w)], st.airingLists⟩ := by
  simp only [fetchLoop, if_pos hcond, hreply]

theorem fetchLoop_step (W : Int → Int) (server : Int → Int → Reply)
    (ey ew : Int) (fuel : Nat) (y w : Int) (st : LoopState) (data : Option (List Entry))
    (hcond : y < ey ∨ (y = ey ∧ w ≤ ew))
    (hreply : fetchAiringSchedule (server y w) = .ok data) :
    fetchLoop W server ey ew (fuel + 1) y w st
      = fetchLoop W server ey ew fuel (if w + 1 > W y then y + 1 else y)
          (if w + 1 > W y then 1 else w + 1)
          ⟨st.fetched ++ [(y, w)], fetchStep st.airingLists data⟩ := by
  simp only [fetchLoop, if_pos hcond, hreply]
  split <;> rfl

theorem fetchAiringSchedule_error (r : Reply) (code : Nat)
    (h : fetchAiringSchedule r = .error code) : code = 1 := by
  unfold fetchAiringSchedule at h
  split at h
  · injection h with h; exact h.symm
  · split at h
    · split at h
      · cases h
      · injection h with h; exact h.symm
    · split at h
      · injection h with h; exact h.symm
      · cases h
      · cases h

theorem isFatal_iff (r : Reply) : isFatal r = true ↔ fetchAiringSchedule r = .error 1 := by
  unfold isFatal
  cases h : fetchAiringSchedule r with
  | error c => simp [fetchAiringSchedule_error r c h]
  | ok d => simp

theorem fetchAiringSchedule_of_not_fatal (r : Reply) (h : isFatal r = false) :
    fetchAiringSchedule r = .ok (replyData r) := by
  unfold isFatal at h
  unfold replyData
  cases hr : fetchAiringSchedule r with
  | error c => rw [hr] at h; cases h
  | ok d => rfl

theorem fetchLoop_from (W : Int → Int) (server : Int → Int → Reply)
    (ey ew : Int) (hW : ∀ y, W y = 52 ∨ W y = 53) :
    ∀ (n : Nat) (y w : Int), 1 ≤ w → w ≤ W y →
      53 * (ey - y) + 54 - w ≤ n →
      ∃ l : List (Int × Int),
        (∀ (st : LoopState) (fuel : Nat), n + 1 ≤ fuel →
          fetchLoop W server ey ew fuel y w st = runWeeks server l st) ∧
        l.Pairwise ptrLt ∧
        ∀ p, p ∈ l ↔ (1 ≤ p.2 ∧ p.2 ≤ W p.1 ∧ ptrLe (y, w) p ∧ ptrLe p (ey, ew)) := by
  intro n
  induction n with
  | zero =>
    intro y w h1 h2 hm
    have hWy := hW y
    have hcond : ¬ (y < ey ∨ (y = ey ∧ w ≤ ew)) := by omega
    refine ⟨[], ?_, List.Pairwise.nil, ?_⟩
    · intro st fuel hf
      obtain ⟨k, rfl⟩ : ∃ k, fuel = k + 1 := ⟨fuel - 1, by omega⟩
      rw [fetchLoop_stop W server ey ew k y w st hcond]
      rfl
    · rintro ⟨py, pw⟩
      simp only [List.not_mem_nil, ptrLe, false_iff]
      omega
  | succ m ih =>
    intro y w h1 h2 hm
    have hWy := hW y
    by_cases hcond : y < ey ∨ (y = ey ∧ w ≤ ew)
    · have hW1 := hW (y + 1)
      obtain ⟨l, hrun, hsorted, hmem⟩ :=
        ih (if w + 1 > W y then y + 1 else y) (if w + 1 > W y then 1 else w + 1)
          (by split <;> omega) (by split <;> omega) (by split <;> omega)
      refine ⟨(y, w) :: l, ?_, ?_, ?_⟩
      · intro st fuel hf
        obtain ⟨k, rfl⟩ : ∃ k, fuel = k + 1 := ⟨fuel - 1, by omega⟩
        cases hreply : fetchAiringSchedule (server y w) with
        | error code =>
          rw [fetchLoop_fatal W server ey ew k y w st code hcond hreply]
          simp only [runWeeks, hreply]
        | ok data =>
          rw [fetchLoop_step W server ey ew k y w st data hcond hreply, hrun _ k (by omega)]
          simp only [runWeeks, hreply]
      · refine List.Pairwise.cons ?_ hsorted
        rintro ⟨py, pw⟩ hp
        have := (hmem (py, pw)).1 hp
        simp only [ptrLe, ptrLt] at this ⊢
        split at this <;> omega
      · rintro ⟨py, pw⟩
        simp only [List.mem_cons, hmem, Prod.mk.injEq, ptrLe]
        constructor
        · rintro (⟨rfl, rfl⟩ | h)
          · omega
          · split at h <;> omega
        · intro h
          by_cases heq : py = y ∧ pw = w
          · exact Or.inl heq
          · right
            by_cases hy : py = y
            · subst hy
              split <;> omega
            · split <;> omega
    · refine ⟨[], ?_, List.Pairwise.nil, ?_⟩
      · intro st fuel hf
        obtain ⟨k, rfl⟩ : ∃ k, fuel = k + 1 := ⟨fuel - 1, by omega⟩
        rw [fetchLoop_stop W server ey ew k y w st hcond]
        rfl
      · rintro ⟨py, pw⟩
        simp only [List.not_mem_nil, ptrLe, false_iff]
        omega

theorem runWeeks_ne_outOfFuel (server : Int → Int → Reply) :
    ∀ (l : List (Int × Int)) (st : LoopState), runWeeks server l st ≠ .outOfFuel := by
  intro l
  induction l with
  | nil => intro st h; simp [runWeeks] at h
  | cons p ps ih =>
    intro st
    cases hp : fetchAiringSchedule (server p.1 p.2) with
    | error c => simp [runWeeks, hp]
    | ok d =>
      simp only [runWeeks, hp]
      exact ih _

theorem runWeeks_of_not_fatal (server : Int → Int → Reply) :
    ∀ (l : List (Int × Int)) (st : LoopState),
      (∀ p ∈ l, isFatal (server p.1 p.2) = false) →
      runWeeks server l st
        = .done ⟨st.fetched ++ l,
            (l.map (fun p => replyData (server p.1 p.2))).foldl fetchStep st.airingLists⟩ := by
  intro l
  induction l with
  | nil => intro st _; simp [runWeeks]
  | cons p ps ih =>
    intro st h
    have hp := fetchAiringSchedule_of_not_fatal _ (h p (List.mem_cons_self _ _))
    simp only [runWeeks, hp]
    rw [ih _ (fun q hq => h q (List.mem_cons_of_mem _ hq))]
    simp

theorem runWeeks_of_fatal (server : Int → Int → Reply) :
    ∀ (pre : List (Int × Int)) (p : Int × Int) (post : List (Int × Int)) (st : LoopState),
      (∀ q ∈ pre, isFatal (server q.1 q.2) = false) → isFatal (server p.1 p.2) = true →
      runWeeks server (pre ++ p :: post) st
        = .exit 1 ⟨st.fetched ++ pre ++ [p],
            (pre.map (fun q => replyData (server q.1 q.2))).foldl fetchStep st.airingLists⟩ := by
  intro pre
  induction pre with
  | nil =>
    intro p post st _ hp
    have := (isFatal_iff _).1 hp
    simp [runWeeks, this]
  | cons q qs ih =>
    intro p post st h hp
    have hq := fetchAiringSchedule_of_not_fatal _ (h q (List.mem_cons_self _ _))
    have hrun : runWeeks server (q :: qs ++ p :: post) st
        = runWeeks server (qs ++ p :: post)
            ⟨st.fetched ++ [q], fetchStep st.airingLists (replyData (server q.1 q.2))⟩ := by
      simp only [List.cons_append, runWeeks, hq]
      rfl
    rw [hrun, ih p post _ (fun r hr => h r (List.mem_cons_of_mem _ hr)) hp]
    simp

theorem fetchLoop_congr (W : Int → Int) (server server' : Int → Int → Reply)
    (ey ew : Int)
    (hsame : ∀ lists y w, (fetchAiringSchedule (server y w)).map (fetchStep lists)
      = (fetchAiringSchedule (server' y w)).map (fetchStep lists)) :
    ∀ (fuel : Nat) (y w : Int) (st : LoopState),
      fetchLoop W server ey ew fuel y w st = fetchLoop W server' ey ew fuel y w st := by
  intro fuel
  induction fuel with
  | zero => intro y w st; rfl
  | succ k ih =>
    intro y w st
    by_cases hcond : y < ey ∨ (y = ey ∧ w ≤ ew)
    · have h := hsame st.airingLists y w
      cases h1 : fetchAiringSchedule (server y w) with
      | error c =>
        cases h2 : fetchAiringSchedule (server' y w) with
        | error c' =>
          rw [h1, h2] at h
          simp only [Except.map] at h
          injection h with h
          subst h
          rw [fetchLoop_fatal _ _ _ _ _ _ _ _ _ hcond h1, fetchLoop_fatal _ _ _ _ _ _ _ _ _ hcond h2]
        | ok d' => rw [h1, h2] at h; simp [Except.map] at h
      | ok d =>
        cases h2 : fetchAiringSchedule (server' y w) with
        | error c' => rw [h1, h2] at h; simp [Except.map] at h
        | ok d' =>
          rw [h1, h2] at h
          simp only [Except.map] at h
          injection h with h
          rw [fetchLoop_step _ _ _ _ _ _ _ _ _ hcond h1, fetchLoop_step _ _ _ _ _ _ _ _ _ hcond h2,
            h, ih]
    · rw [fetchLoop_stop _ _ _ _ _ _ _ _ hcond, fetchLoop_stop _ _ _ _ _ _ _ _ hcond]

theorem fetchStep_none (lists : List Entry) : fetchStep lists none = lists := rfl

theorem fetchStep_nil (lists : List Entry) : fetchStep lists (some []) = lists := by
  simp [fetchStep]

theorem fetchStep_sublist (lists : List Entry) (r : Option (List Entry)) :
    (fetchStep lists r).Sublist (lists ++ r.getD []) := by
  cases r with
  | none => simp [fetchStep]
  | some data =>
    simp only [fetchStep, Option.getD_some]
    exact (List.Sublist.refl lists).append (List.filter_sublist _)

theorem find?_filter_of_imp {α : Type} (p q : α → Bool) (l : List α)
    (h : ∀ a, p a = true → q a = true) : (l.filter q).find? p = l.find? p := by
  induction l with
  | nil => rfl
  | cons a as ih =>
    cases hq : q a with
    | true =>
      rw [List.filter_cons_of_pos hq]
      simp [List.find?_cons, ih]
    | false =>
      have hp : p a = false := by
        cases hp : p a with
        | false => rfl
        | true => rw [h a hp] at hq; cases hq
      rw [List.filter_cons_of_neg (by simp [hq])]
      simp [List.find?_cons, hp, ih]

theorem find?_filter_new (lists data : List Entry) (ρ : String)
    (hnone : lists.find? (fun e => e.route == ρ) = none) :
    (data.filter (fun item => !lists.any (fun existing => existing.route == item.route))).find?
        (fun e => e.route == ρ)
      = data.find? (fun e => e.route == ρ) := by
  rw [List.find?_eq_none] at hnone
  apply find?_filter_of_imp
  intro a ha
  simp only [Bool.not_eq_true', List.any_eq_false, beq_iff_eq]
  intro x hx hxa
  simp only [beq_iff_eq] at ha
  exact hnone x hx (by simp [hxa, ha])

theorem fetchStep_find? (lists : List Entry) (r : Option (List Entry)) (ρ : String) :
    (fetchStep lists r).find? (fun e => e.route == ρ)
      = (lists ++ r.getD []).find? (fun e => e.route == ρ) := by
  cases r with
  | none => simp [fetchStep]
  | some data =>
    simp only [fetchStep, Option.getD_some, List.find?_append]
    cases h : lists.find? (fun e => e.route == ρ) with
    | some x => simp
    | none => simp [find?_filter_new lists data ρ h]

theorem fetchStep_nodup (lists : List Entry) (r : Option (List Entry))
    (hlists : (lists.map Entry.route).Nodup)
    (hdata : ∀ data, r = some data → (data.map Entry.route).Nodup) :
    ((fetchStep lists r).map Entry.route).Nodup := by
  cases r with
  | none => simpa [fetchStep] using hlists
  | some data =>
    simp only [fetchStep, List.map_append]
    refine List.Nodup.append hlists ?_ ?_
    · exact List.Nodup.sublist ((List.filter_sublist _).map _) (hdata data rfl)
    · intro ρ h1 h2
      obtain ⟨x, hx, rfl⟩ := List.mem_map.1 h1
      obtain ⟨item, hitem, hρ⟩ := List.mem_map.1 h2
      have := (List.mem_filter.1 hitem).2
      simp only [Bool.not_eq_true', List.any_eq_false, beq_iff_eq] at this
      exact this x hx hρ.symm

theorem foldl_fetchStep_sublist (responses : List (Option (List Entry))) :
    ∀ lists, (responses.foldl fetchStep lists).Sublist (lists ++ allRecords responses) := by
  induction responses with
  | nil => intro lists; simp [allRecords]
  | cons r rs ih =>
    intro lists
    have h1 := ih (fetchStep lists r)
    have h2 := (fetchStep_sublist lists r).append (List.Sublist.refl (allRecords rs))
    have h3 : lists ++ allRecords (r :: rs) = lists ++ r.getD [] ++ allRecords rs := by
      simp [allRecords]
    rw [h3]
    exact h1.trans h2

theorem foldl_fetchStep_find? (responses : List (Option (List Entry))) (ρ : String) :
    ∀ lists, (responses.foldl fetchStep lists).find? (fun e => e.route == ρ)
      = (lists ++ allRecords responses).find? (fun e => e.route == ρ) := by
  induction responses with
  | nil => intro lists; simp [allRecords]
  | cons r rs ih =>
    intro lists
    have h3 : lists ++ allRecords (r :: rs) = lists ++ r.getD [] ++ allRecords rs := by
      simp [allRecords]
    rw [h3, List.foldl_cons, ih, List.find?_append, fetchStep_find?, ← List.find?_append]

theorem foldl_fetchStep_nodup (responses : List (Option (List Entry)))
    (hweek : ∀ r ∈ responses, ((r.getD []).map Entry.route).Nodup) :
    ∀ lists, (lists.map Entry.route).Nodup →
      ((responses.foldl fetchStep lists).map Entry.route).Nodup := by
  induction responses with
  | nil => intro lists h; simpa using h
  | cons r rs ih =>
    intro lists h
    rw [List.foldl_cons]
    apply ih (fun r' hr' => hweek r' (List.mem_cons_of_mem _ hr'))
    apply fetchStep_nodup lists r h
    intro data hr
    have := hweek r (List.mem_cons_self _ _)
    simpa [hr] using this

/-! ## Lemmas on the override pass -/

theorem isOverdue_iff (now : Int) (d : Entry) :
    isOverdue now d = true ↔ ValidDate d.episodeDate ∧ d.episodeDate < now := by
  unfold isOverdue validTime ValidDate
  simp only [Bool.and_eq_true, decide_eq_true_eq]
  omega

theorem jsAddOne_of_safe (n : Int) (h : SafeInteger n) : jsAddOne n = n + 1 := by
  unfold SafeInteger at h
  unfold jsAddOne
  rw [if_pos (by omega)]

theorem advanceDub_of_safe (past : Int → Nat → Bool → Int) (d : Entry)
    (h : SafeInteger d.episodeNumber) : advanceDub past d = advancedRecord past d := by
  simp [advanceDub, advancedRecord, jsAddOne_of_safe _ h]

theorem advanceDub_ne_of_safe (past : Int → Nat → Bool → Int) (d : Entry)
    (h : SafeInteger d.episodeNumber) : advanceDub past d ≠ d := by
  intro heq
  have := congrArg Entry.episodeNumber heq
  simp [advanceDub, jsAddOne_of_safe _ h] at this

theorem advanceDub_ne_of_shift (past : Int → Nat → Bool → Int) (d : Entry)
    (h : past d.episodeDate 1 false ≠ d.episodeDate) : advanceDub past d ≠ d := by
  intro heq
  exact h (congrArg Entry.episodeDate heq)

theorem advanceCustomDubs_eq_loop (past : Int → Nat → Bool → Int) (clock : Nat → Int)
    (dubs : List Entry) :
    advanceCustomDubs past clock dubs = advanceLoop past clock 0 dubs := by
  unfold advanceCustomDubs
  split
  · rfl
  · next h =>
    have : dubs = [] := by
      cases dubs with
      | nil => rfl
      | cons d ds => simp at h
    subst this; rfl

theorem advanceLoop_const (past : Int → Nat → Bool → Int) (now : Int) (dubs : List Entry) :
    ∀ i, advanceLoop past (fun _ => now) i dubs
      = dubs.map (fun d => if isOverdue now d then advanceDub past d else d) := by
  induction dubs with
  | nil => intro i; rfl
  | cons d ds ih => intro i; simp [advanceLoop, ih]

theorem advanceCustomDubs_const (past : Int → Nat → Bool → Int) (now : Int)
    (dubs : List Entry) :
    advanceCustomDubs past (fun _ => now) dubs
      = dubs.map (fun d => if isOverdue now d then advanceDub past d else d) := by
  rw [advanceCustomDubs_eq_loop, advanceLoop_const]

theorem length_advanceLoop (past : Int → Nat → Bool → Int) (clock : Nat → Int)
    (dubs : List Entry) : ∀ i, (advanceLoop past clock i dubs).length = dubs.length := by
  induction dubs with
  | nil => intro i; rfl
  | cons d ds ih => intro i; simp [advanceLoop, ih]

theorem advanceLoop_getElem? (past : Int → Nat → Bool → Int) (clock : Nat → Int)
    (dubs : List Entry) :
    ∀ i j, (advanceLoop past clock i dubs)[j]?
      = (dubs[j]?).map (fun d => if isOverdue (clock (i + j)) d then advanceDub past d else d) := by
  induction dubs with
  | nil => intro i j; simp [advanceLoop]
  | cons d ds ih =>
    intro i j
    cases j with
    | zero => simp [advanceLoop]
    | succ k =>
      simp only [advanceLoop, List.getElem?_cons_succ, ih]
      have : i + 1 + k = i + (k + 1) := by omega
      rw [this]

theorem advanceLoop_eq_self_iff (past : Int → Nat → Bool → Int) (clock : Nat → Int)
    (dubs : List Entry) :
    advanceLoop past clock 0 dubs = dubs ↔
      ∀ i d, dubs[i]? = some d → isOverdue (clock i) d = true → advanceDub past d = d := by
  constructor
  · intro h i d hd hov
    have := advanceLoop_getElem? past clock dubs 0 i
    rw [h, hd] at this
    simp only [Nat.zero_add, Option.map_some', hov, if_true, Option.some.injEq] at this
    exact this.symm
  · intro h
    apply List.ext_getElem?
    intro i
    rw [advanceLoop_getElem?]
    cases hd : dubs[i]? with
    | none => rfl
    | some d =>
      simp only [Nat.zero_add, Option.map_some', Option.some.injEq]
      split
      · next hov => exact h i d hd hov
      · rfl

theorem exceedsEpisodeCount_iff (dub : Entry) :
    exceedsEpisodeCount dub = true ↔ FinishedNonzero dub := by
  unfold exceedsEpisodeCount FinishedNonzero jsTruthy jsGt
  cases h : dub.episodes with
  | none => simp
  | some n => simp

theorem filterCustomDubs_eq_self_iff (l : List Entry) :
    filterCustomDubs l = l ↔ ∀ d ∈ l, ¬ FinishedNonzero d := by
  unfold filterCustomDubs
  rw [List.filter_eq_self]
  constructor
  · intro h d hd hfin
    have := h d hd
    simp [(exceedsEpisodeCount_iff d).2 hfin] at this
  · intro h d hd
    cases hex : exceedsEpisodeCount d with
    | false => simp
    | true => exact absurd ((exceedsEpisodeCount_iff d).1 hex) (h d hd)

theorem filter_eq_self_of_length {α : Type} (p : α → Bool) (l : List α)
    (h : (l.filter p).length = l.length) : l.filter p = l := by
  rw [List.filter_eq_self]
  intro a ha
  by_contra hpa
  have hlt := (List.length_filter_lt_length_iff_exists (p := p) (l := l)).2 ⟨a, ha, hpa⟩
  omega

theorem overridePass_const (past : Int → Nat → Bool → Int) (now : Int) (dubs : List Entry) :
    overridePass past (fun _ => now) dubs
      = (dubs.map (fun d => if isOverdue now d then advanceDub past d else d)).filter
          (fun dub => if exceedsEpisodeCount dub then false else true) := by
  simp [overridePass, filterCustomDubs, advanceCustomDubs_const]

theorem overridePass_append (past : Int → Nat → Bool → Int) (now : Int) (xs ys : List Entry) :
    overridePass past (fun _ => now) (xs ++ ys)
      = overridePass past (fun _ => now) xs ++ overridePass past (fun _ => now) ys := by
  simp [overridePass_const]

theorem overridePass_eq_self_iff (past : Int → Nat → Bool → Int) (clock : Nat → Int)
    (dubs : List Entry) :
    overridePass past clock dubs = dubs ↔
      (∀ i d, dubs[i]? = some d → isOverdue (clock i) d = true → advanceDub past d = d) ∧
        ∀ d ∈ advanceCustomDubs past clock dubs, ¬ FinishedNonzero d := by
  constructor
  · intro h
    have hlen : (advanceCustomDubs past clock dubs).length = dubs.length := by
      rw [advanceCustomDubs_eq_loop, length_advanceLoop]
    have hfilter : filterCustomDubs (advanceCustomDubs past clock dubs)
        = advanceCustomDubs past clock dubs := by
      unfold filterCustomDubs
      apply filter_eq_self_of_length
      have := congrArg List.length h
      unfold overridePass filterCustomDubs at this
      omega
    have hsame : advanceCustomDubs past clock dubs = dubs := by
      rw [← hfilter]; exact h
    refine ⟨?_, (filterCustomDubs_eq_self_iff _).1 hfilter⟩
    rw [advanceCustomDubs_eq_loop] at hsame
    exact (advanceLoop_eq_self_iff past clock dubs).1 hsame
  · rintro ⟨h1, h2⟩
    unfold overridePass
    rw [(filterCustomDubs_eq_self_iff _).2 h2, advanceCustomDubs_eq_loop]
    exact (advanceLoop_eq_self_iff past clock dubs).2 h1

theorem entryJson_injective : Function.Injective entryJson := by
  intro a b h
  cases a with
  | mk r1 t1 n1 e1 d1 s1 =>
  cases b with
  | mk r2 t2 n2 e2 d2 s2 =>
  simp only [entryJson, List.cons.injEq, Prod.mk.injEq, true_and, and_true,
    JsonAtom.str.injEq, JsonAtom.num.injEq] at h
  obtain ⟨hr, ht, hn, he, hd, hs⟩ := h
  have he' : e1 = e2 := by
    cases e1 <;> cases e2 <;> simp_all
  simp [hr, ht, hn, he', hd, hs]

theorem jsonStringify_injective : Function.Injective jsonStringify := by
  intro a b h
  exact List.map_injective_iff.2 entryJson_injective h

theorem overrideStage_customDubs (past : Int → Nat → Bool → Int) (clock : Nat → Int)
    (dubs : List Entry) :
    (overrideStage past clock dubs).customDubs = overridePass past clock dubs := by
  unfold overrideStage overridePass
  simp only []
  split <;> rfl

theorem overrideStage_saved (past : Int → Nat → Bool → Int) (clock : Nat → Int)
    (dubs : List Entry) :
    (overrideStage past clock dubs).saved
      = if jsonStringify (overridePass past clock dubs) ≠ jsonStringify dubs
        then some (overridePass past clock dubs) else none := by
  unfold overrideStage overridePass
  simp only []
  split <;> simp_all

/-! ## Runs of `fetchDubSchedule` -/

theorem fetchDubSchedule_of_done (inp : Inputs) (fuel : Nat) (st : LoopState)
    (htoken : tokenTruthy inp.token = true)
    (hloop : fetchLoop inp.getWeeksInYear inp.server inp.weeks.endYear inp.weeks.endWeek fuel
      inp.weeks.startYear inp.weeks.startWeek ⟨[], []⟩ = .done st) :
    fetchDubSchedule inp fuel = .returned
      ⟨st.fetched, st.airingLists ++ (overrideStage inp.past inp.clock inp.customDubs).customDubs,
        (overrideStage inp.past inp.clock inp.customDubs).saved, []⟩ := by
  unfold fetchDubSchedule
  simp only [htoken, hloop]
  rfl

theorem fetchDubSchedule_returns (inp : Inputs)
    (htoken : tokenTruthy inp.token = true)
    (hW : ∀ y, inp.getWeeksInYear y = 52 ∨ inp.getWeeksInYear y = 53)
    (h1 : 1 ≤ inp.weeks.startWeek)
    (h2 : inp.weeks.startWeek ≤ inp.getWeeksInYear inp.weeks.startYear)
    (hok : ∀ y w, isFatal (inp.server y w) = false) :
    ∃ run, ∀ fuel,
      (53 * (inp.weeks.endYear - inp.weeks.startYear) + 54 - inp.weeks.startWeek).toNat + 1
          ≤ fuel →
        fetchDubSchedule inp fuel = .returned run := by
  obtain ⟨l, hrun, -, -⟩ :=
    fetchLoop_from inp.getWeeksInYear inp.server inp.weeks.endYear inp.weeks.endWeek hW
      (53 * (inp.weeks.endYear - inp.weeks.startYear) + 54 - inp.weeks.startWeek).toNat
      inp.weeks.startYear inp.weeks.startWeek h1 h2 (by omega)
  refine ⟨⟨l,
    (l.map (fun p => replyData (inp.server p.1 p.2))).foldl fetchStep []
      ++ (overrideStage inp.past inp.clock inp.customDubs).customDubs,
    (overrideStage inp.past inp.clock inp.customDubs).saved, []⟩, fun fuel hf => ?_⟩
  have hdone := runWeeks_of_not_fatal inp.server l ⟨[], []⟩ (fun p _ => hok p.1 p.2)
  rw [← hrun _ fuel hf] at hdone
  rw [fetchDubSchedule_of_done inp fuel _ htoken hdone]
  simp

/-! ## Deduplication by route in the fetch loop (C1) -/

/-- C1 as stated fails: a single weekly response that holds two records with
the route `r1` leaves both of them in the accumulated list. -/
theorem same_week_duplicates_are_both_kept :
    fetchLoop (fun _ => 52)
        (fun _ _ => okReply [⟨"r1", "Title", 1, none, 100, "aired"⟩,
          ⟨"r1", "Title", 2, none, 200, "upcoming"⟩])
        2024 1 2 2024 1 ⟨[], []⟩
      = .done ⟨[(2024, 1)],
          [⟨"r1", "Title", 1, none, 100, "aired"⟩, ⟨"r1", "Title", 2, none, 200, "upcoming"⟩]⟩ ∧
      ¬ ((accumulate [some [⟨"r1", "Title", 1, none, 100, "aired"⟩,
          ⟨"r1", "Title", 2, none, 200, "upcoming"⟩]]).map Entry.route).Nodup := by
  decide

/-- C1, amended: for every sequence of weekly responses in which no single
response holds two records with the same route, the accumulated raw list
holds at most one record per route; it is a sublist of the records in fetch
order, and for every route the record it holds is the first one with that
route in fetch order (earliest week, then earliest position in that week). -/
theorem accumulated_list_keeps_first_record_per_route
    (responses : List (Option (List Entry)))
    (hweek : ∀ r ∈ responses, ((r.getD []).map Entry.route).Nodup) :
    ((accumulate responses).map Entry.route).Nodup ∧
      (accumulate responses).Sublist (allRecords responses) ∧
      ∀ ρ : String, (accumulate responses).find? (fun e => e.route == ρ)
        = (allRecords responses).find? (fun e => e.route == ρ) := by
  refine ⟨?_, ?_, ?_⟩
  · exact foldl_fetchStep_nodup responses hweek [] (by simp)
  · simpa using foldl_fetchStep_sublist responses []
  · intro ρ
    simpa using foldl_fetchStep_find? responses ρ []

/-- Two weeks that share the route `r1`, with a `null` week between them. -/
theorem accumulated_list_keeps_first_record_per_route_witness :
    ((accumulate [some [⟨"r1", "Title", 1, none, 100, "aired"⟩], none,
        some [⟨"r2", "Other", 4, none, 300, "aired"⟩,
          ⟨"r1", "Title", 2, none, 200, "upcoming"⟩]]).map Entry.route).Nodup ∧
      (accumulate [some [⟨"r1", "Title", 1, none, 100, "aired"⟩], none,
        some [⟨"r2", "Other", 4, none, 300, "aired"⟩,
          ⟨"r1", "Title", 2, none, 200, "upcoming"⟩]]).Sublist
        (allRecords [some [⟨"r1", "Title", 1, none, 100, "aired"⟩], none,
          some [⟨"r2", "Other", 4, none, 300, "aired"⟩,
            ⟨"r1", "Title", 2, none, 200, "upcoming"⟩]]) ∧
      ∀ ρ : String,
        (accumulate [some [⟨"r1", "Title", 1, none, 100, "aired"⟩], none,
          some [⟨"r2", "Other", 4, none, 300, "aired"⟩,
            ⟨"r1", "Title", 2, none, 200, "upcoming"⟩]]).find? (fun e => e.route == ρ)
        = (allRecords [some [⟨"r1", "Title", 1, none, 100, "aired"⟩], none,
          some [⟨"r2", "Other", 4, none, 300, "aired"⟩,
            ⟨"r1", "Title", 2, none, 200, "upcoming"⟩]]).find? (fun e => e.route == ρ) :=
  accumulated_list_keeps_first_record_per_route _ (by decide)

/-! ## The candidate list (C2) -/

/-- C2 fails on the code: with the raw record `r1` fetched and an override for
the same route `r1`, the run returns a candidate list that holds the raw
record and then the override. -/
theorem raw_record_stays_beside_override :
    fetchDubSchedule overlapInputs 2 = .returned
      ⟨[(2024, 1)],
        [⟨"r1", "Title", 1, none, 100, "aired"⟩, ⟨"r1", "Custom", 5, some 12, 200, "upcoming"⟩],
        none, []⟩ := by
  decide

/-! ## The advance step (C3) -/

/-- C3 as stated fails twice. An overdue override whose `episodeNumber` is
`2^53` keeps that number, since `2^53 + 1` is not a double. An override whose
`episodeDate` lies below the range of valid dates, and so before every `now`,
is left as it is, since an Invalid Date compares false. -/
theorem advance_step_misses_unsafe_number_and_invalid_date :
    advanceCustomDubs (fun t n _ => t + 7 * n) (fun _ => 10)
        [⟨"c1", "Custom", 9007199254740992, none, 5, "airing"⟩]
      = [⟨"c1", "Custom", 9007199254740992, none, 12, "aired"⟩] ∧
      (-9000000000000000 : Int) < 10 ∧
      advanceCustomDubs (fun t n _ => t + 7 * n) (fun _ => 10)
        [⟨"c2", "Custom", 3, none, -9000000000000000, "airing"⟩]
      = [⟨"c2", "Custom", 3, none, -9000000000000000, "airing"⟩] := by
  decide

/-- C3, amended: for an override list whose episode numbers are safe integers,
with the clock reading `now` throughout the pass, the advance step maps the
list element by element: an override whose `episodeDate` is a valid date
before `now` becomes the record with `episodeNumber` one higher,
`airingStatus` equal to `aired`, `episodeDate` equal to
`past(old episodeDate, 1, false)` and every other field kept; every other
override is kept as it is. So each overdue override is advanced exactly once,
and the number and the order of the overrides do not change. -/
theorem advance_step_maps_each_override (past : Int → Nat → Bool → Int) (now : Int)
    (dubs : List Entry) (hsafe : ∀ d ∈ dubs, SafeInteger d.episodeNumber) :
    advanceCustomDubs past (fun _ => now) dubs
      = dubs.map (fun d =>
          if ValidDate d.episodeDate ∧ d.episodeDate < now then advancedRecord past d else d) := by
  rw [advanceCustomDubs_const]
  apply List.map_congr_left
  intro d hd
  by_cases hov : isOverdue now d = true
  · rw [if_pos hov, if_pos ((isOverdue_iff now d).1 hov), advanceDub_of_safe past d (hsafe d hd)]
  · rw [if_neg hov, if_neg (fun h => hov ((isOverdue_iff now d).2 h))]

/-- Three overrides at `now = 10`: the first and the third are overdue, the
second is not. -/
theorem advance_step_maps_each_override_witness :
    advanceCustomDubs (fun t n _ => t + 7 * n) (fun _ => 10)
        [⟨"a", "A", 1, some 12, 5, "airing"⟩, ⟨"b", "B", 2, none, 20, "upcoming"⟩,
          ⟨"c", "C", 7, some 7, 9, "airing"⟩]
      = [⟨"a", "A", 2, some 12, 12, "aired"⟩, ⟨"b", "B", 2, none, 20, "upcoming"⟩,
          ⟨"c", "C", 8, some 7, 16, "aired"⟩] :=
  (advance_step_maps_each_override (fun t n _ => t + 7 * n) 10
    [⟨"a", "A", 1, some 12, 5, "airing"⟩, ⟨"b", "B", 2, none, 20, "upcoming"⟩,
      ⟨"c", "C", 7, some 7, 9, "airing"⟩] (by decide)).trans (by decide)

/-! ## The filter step (C4) -/

/-- C4 as stated fails: an override whose known total is `0` and whose
`episodeNumber` is `1` is finished in the words of the spec, and the filter
keeps it. -/
theorem filter_keeps_finished_with_zero_total :
    Finished ⟨"c0", "t", 1, some 0, 0, "aired"⟩ ∧
      filterCustomDubs [⟨"c0", "t", 1, some 0, 0, "aired"⟩]
        = [⟨"c0", "t", 1, some 0, 0, "aired"⟩] :=
  ⟨⟨0, rfl, by decide⟩, by decide⟩

/-- C4, amended: the filter step removes an override if and only if its
`episodes` total is known, is not zero, and is less than its `episodeNumber`;
the overrides that remain are the others, each as often as before, in their
order and with their field values. -/
theorem filter_step_removes_exactly_nonzero_finished (dubs : List Entry) :
    (filterCustomDubs dubs).Sublist dubs ∧
      ∀ d, (FinishedNonzero d → d ∉ filterCustomDubs dubs) ∧
        (¬ FinishedNonzero d → (filterCustomDubs dubs).count d = dubs.count d) := by
  refine ⟨List.filter_sublist _, fun d => ⟨?_, ?_⟩⟩
  · intro hfin hmem
    have hex := (exceedsEpisodeCount_iff d).2 hfin
    simp [filterCustomDubs, List.mem_filter, hex] at hmem
  · intro hfin
    have hex : exceedsEpisodeCount d = false := by
      cases h : exceedsEpisodeCount d with
      | false => rfl
      | true => exact absurd ((exceedsEpisodeCount_iff d).1 h) hfin
    exact List.count_filter (by simp [hex])

/-- The filter step at a list of one finished override with a nonzero total
and one unfinished override. -/
theorem filter_step_removes_exactly_nonzero_finished_witness :
    (filterCustomDubs [⟨"c1", "t", 4, some 3, 0, "aired"⟩, ⟨"c2", "t", 2, some 3, 0, "aired"⟩]).Sublist
        [⟨"c1", "t", 4, some 3, 0, "aired"⟩, ⟨"c2", "t", 2, some 3, 0, "aired"⟩] ∧
      ⟨"c1", "t", 4, some 3, 0, "aired"⟩ ∉
        filterCustomDubs [⟨"c1", "t", 4, some 3, 0, "aired"⟩, ⟨"c2", "t", 2, some 3, 0, "aired"⟩] :=
  ⟨(filter_step_removes_exactly_nonzero_finished _).1,
    ((filter_step_removes_exactly_nonzero_finished _).2 _).1 ⟨3, rfl, by decide, by decide⟩⟩

/-! ## An overdue override on its last episode (C5) -/

/-- C5 as stated fails three times: an overdue override whose `episodeNumber`
equals its known total stays in the list after the override pass when that
total is `0` (a total of `0` is falsy on line 115), when it is `2^53` (the
number is not raised), and when the `episodeDate` lies below the range of
valid dates (the override is not advanced). -/
theorem overdue_override_on_last_episode_can_stay :
    overridePass (fun t n _ => t + 7 * n) (fun _ => 10) [⟨"c1", "t", 0, some 0, 5, "airing"⟩]
        = [⟨"c1", "t", 1, some 0, 12, "aired"⟩] ∧
      overridePass (fun t n _ => t + 7 * n) (fun _ => 10)
          [⟨"c1", "t", 9007199254740992, some 9007199254740992, 5, "airing"⟩]
        = [⟨"c1", "t", 9007199254740992, some 9007199254740992, 12, "aired"⟩] ∧
      (-9000000000000000 : Int) < 10 ∧
      overridePass (fun t n _ => t + 7 * n) (fun _ => 10)
          [⟨"c1", "t", 3, some 3, -9000000000000000, "airing"⟩]
        = [⟨"c1", "t", 3, some 3, -9000000000000000, "airing"⟩] := by
  decide

/-- C5, amended: with the clock reading `now` throughout the pass, an override
whose `episodeDate` is a valid date before `now` and whose `episodeNumber`
equals its known total, that total being a safe integer other than zero,
leaves nothing behind: the list after the override pass, which is both the
list that is persisted and the list appended to the candidates, is the one
obtained from the other overrides alone. -/
theorem overdue_override_on_last_episode_is_dropped (past : Int → Nat → Bool → Int)
    (now : Int) (before after : List Entry) (dub : Entry) (n : Int)
    (hvalid : ValidDate dub.episodeDate) (hdate : dub.episodeDate < now)
    (hknown : dub.episodes = some n) (hn : n ≠ 0) (hsafe : SafeInteger n)
    (hlast : dub.episodeNumber = n) :
    overridePass past (fun _ => now) (before ++ dub :: after)
      = overridePass past (fun _ => now) (before ++ after) := by
  have hov : isOverdue now dub = true := (isOverdue_iff now dub).2 ⟨hvalid, hdate⟩
  have hone : overridePass past (fun _ => now) [dub] = [] := by
    have hex : exceedsEpisodeCount (advanceDub past dub) = true := by
      rw [exceedsEpisodeCount_iff, advanceDub_of_safe past dub (hlast ▸ hsafe)]
      exact ⟨n, by simp [advancedRecord, hknown], hn, by simp [advancedRecord, hlast]⟩
    simp [overridePass_const, hov, hex]
  have hsplit : before ++ dub :: after = before ++ ([dub] ++ after) := by simp
  rw [hsplit, overridePass_append, overridePass_append, hone, overridePass_append]
  simp

/-- The override of the spec example, `c1` with episode 3 of 3 and a date
before `now`, between two other overrides. -/
theorem overdue_override_on_last_episode_is_dropped_witness :
    overridePass (fun t n _ => t + 7 * n) (fun _ => 10)
        ([⟨"a", "t", 1, some 12, 20, "airing"⟩] ++ ⟨"c1", "t", 3, some 3, 5, "airing"⟩
          :: [⟨"b", "t", 2, none, 3, "airing"⟩])
      = overridePass (fun t n _ => t + 7 * n) (fun _ => 10)
        ([⟨"a", "t", 1, some 12, 20, "airing"⟩] ++ [⟨"b", "t", 2, none, 3, "airing"⟩]) :=
  overdue_override_on_last_episode_is_dropped _ 10 _ _ ⟨"c1", "t", 3, some 3, 5, "airing"⟩ 3
    (by decide) (by decide) rfl (by decide) (by decide) rfl

/-! ## The weeks fetched (C6) -/

/-- C6 as stated fails: in the window 2024/1 to 2024/4 with 52 weeks a year,
the reply 500 to week 3 ends the process there, and week 4, which lies in the
window, is never requested. -/
theorem fatal_reply_ends_the_loop_early :
    fetchLoop (fun _ => 52) flakyServer 2024 4 10 2024 1 ⟨[], []⟩
        = .exit 1 ⟨[(2024, 1), (2024, 2), (2024, 3)],
            [⟨"r1", "Title", 1, none, 100, "aired"⟩]⟩ ∧
      ((1 : Int) ≤ 4 ∧ (4 : Int) ≤ (fun _ => 52) (2024 : Int) ∧
        ptrLe (2024, 1) (2024, 4) ∧ ptrLe (2024, 4) (2024, 4)) ∧
      (2024, 4) ∉ [((2024 : Int), (1 : Int)), (2024, 2), (2024, 3)] := by
  decide

/-- C6, amended: for a start pointer with `1 <= startWeek <=
getWeeksInYear(startYear)` and a `getWeeksInYear` that returns 52 or 53, let
the window be the list, strictly ascending by `(year, week)` and so without
repetition, of exactly the pointers `p` with
`1 <= p.week <= getWeeksInYear(p.year)` that lie between the start pointer and
the end pointer, both included. With any fuel above an explicit bound the loop
ends, by leaving the loop or by the exit of the process. When no reply in the window is fatal, it ends by leaving the loop, the
weeks requested are the window, each once and in order, and the store is the
one accumulated from their responses. When some reply is fatal, the process
exits with code 1 at the first such week, the weeks requested being the window
up to and including that week. -/
theorem fetch_loop_fetches_window_ascending (W : Int → Int)
    (server : Int → Int → Reply) (startYear startWeek endYear endWeek : Int)
    (hW : ∀ y, W y = 52 ∨ W y = 53) (h1 : 1 ≤ startWeek) (h2 : startWeek ≤ W startYear) :
    ∃ l : List (Int × Int),
      l.Pairwise ptrLt ∧ l.Nodup ∧
      (∀ p, p ∈ l ↔ (1 ≤ p.2 ∧ p.2 ≤ W p.1 ∧
        ptrLe (startYear, startWeek) p ∧ ptrLe p (endYear, endWeek))) ∧
      (∀ fuel, (53 * (endYear - startYear) + 54 - startWeek).toNat + 1 ≤ fuel →
        fetchLoop W server endYear endWeek fuel startYear startWeek ⟨[], []⟩ ≠ .outOfFuel) ∧
      ((∀ p ∈ l, isFatal (server p.1 p.2) = false) →
        ∀ fuel, (53 * (endYear - startYear) + 54 - startWeek).toNat + 1 ≤ fuel →
          fetchLoop W server endYear endWeek fuel startYear startWeek ⟨[], []⟩
            = .done ⟨l, accumulate (l.map (fun p => replyData (server p.1 p.2)))⟩) ∧
      ∀ pre p post, l = pre ++ p :: post →
        (∀ q ∈ pre, isFatal (server q.1 q.2) = false) → isFatal (server p.1 p.2) = true →
        ∀ fuel, (53 * (endYear - startYear) + 54 - startWeek).toNat + 1 ≤ fuel →
          fetchLoop W server endYear endWeek fuel startYear startWeek ⟨[], []⟩
            = .exit 1 ⟨pre ++ [p],
                accumulate (pre.map (fun q => replyData (server q.1 q.2)))⟩ := by
  obtain ⟨l, hrun, hsorted, hmem⟩ :=
    fetchLoop_from W server endYear endWeek hW
      (53 * (endYear - startYear) + 54 - startWeek).toNat startYear startWeek h1 h2
      (by omega)
  refine ⟨l, hsorted, ?_, hmem, ?_, ?_, ?_⟩
  · refine hsorted.imp ?_
    rintro ⟨ay, aw⟩ ⟨ay', aw'⟩ hlt heq
    simp only [ptrLt, Prod.mk.injEq] at hlt heq
    omega
  · intro fuel hf
    rw [hrun _ fuel hf]
    exact runWeeks_ne_outOfFuel server l _
  · intro hok fuel hf
    rw [hrun _ fuel hf, runWeeks_of_not_fatal server l _ hok]
    simp [accumulate]
  · intro pre p post hl hpre hp fuel hf
    rw [hrun _ fuel hf, hl, runWeeks_of_fatal server pre p post _ hpre hp]
    simp [accumulate]

/-- A window across the end of a year of 53 weeks, from 2020/52 to 2021/1,
against a server whose week 2 answers 404 and no week is fatal. -/
theorem fetch_loop_fetches_window_ascending_witness :
    ∃ l : List (Int × Int),
      l.Pairwise ptrLt ∧ l.Nodup ∧
      (∀ p, p ∈ l ↔ (1 ≤ p.2 ∧ p.2 ≤ (fun y => if y = 2020 then 53 else 52) p.1 ∧
        ptrLe (2020, 52) p ∧ ptrLe p (2021, 1))) ∧
      (∀ fuel, (53 * ((2021 : Int) - 2020) + 54 - 52).toNat + 1 ≤ fuel →
        fetchLoop (fun y => if y = 2020 then 53 else 52) gapServer 2021 1 fuel 2020 52 ⟨[], []⟩
          ≠ .outOfFuel) ∧
      ((∀ p ∈ l, isFatal (gapServer p.1 p.2) = false) →
        ∀ fuel, (53 * ((2021 : Int) - 2020) + 54 - 52).toNat + 1 ≤ fuel →
          fetchLoop (fun y => if y = 2020 then 53 else 52) gapServer 2021 1 fuel 2020 52 ⟨[], []⟩
            = .done ⟨l, accumulate (l.map (fun p => replyData (gapServer p.1 p.2)))⟩) ∧
      ∀ pre p post, l = pre ++ p :: post →
        (∀ q ∈ pre, isFatal (gapServer q.1 q.2) = false) → isFatal (gapServer p.1 p.2) = true →
        ∀ fuel, (53 * ((2021 : Int) - 2020) + 54 - 52).toNat + 1 ≤ fuel →
          fetchLoop (fun y => if y = 2020 then 53 else 52) gapServer 2021 1 fuel 2020 52 ⟨[], []⟩
            = .exit 1 ⟨pre ++ [p],
                accumulate (pre.map (fun q => replyData (gapServer q.1 q.2)))⟩ :=
  fetch_loop_fetches_window_ascending (fun y => if y = 2020 then 53 else 52) gapServer
    2020 52 2021 1 (fun y => by by_cases h : y = 2020 <;> simp [h]) (by decide) (by decide)

/-! ## A week without data (C7) -/

/-- C7 as stated fails: in the window 2024/1 to 2024/4, week 2 answers 404, so
that its fetch returns `null`, and week 3 answers 500; the process exits at
week 3 and the later week 4 of the window is never requested. -/
theorem later_week_is_lost_to_a_fatal_reply :
    fetchAiringSchedule (flakyServer 2024 2) = .ok none ∧
      fetchLoop (fun _ => 52) flakyServer 2024 4 10 2024 1 ⟨[], []⟩
        = .exit 1 ⟨[(2024, 1), (2024, 2), (2024, 3)],
            [⟨"r1", "Title", 1, none, 100, "aired"⟩]⟩ ∧
      ptrLt (2024, 2) (2024, 4) ∧ ptrLe (2024, 4) (2024, 4) ∧
      (2024, 4) ∉ [((2024 : Int), (1 : Int)), (2024, 2), (2024, 3)] :=
  ⟨rfl, by decide, by decide, by decide, by decide⟩

/-- C7, amended: a 404 reply makes `fetchAiringSchedule` return `null`; a week
whose fetch returns `null` leaves the accumulated list as it is, exactly as
an empty response does; the whole loop, from any state and with any fuel,
ends as it would had that week returned an empty list, with the same weeks
requested, the same accumulated list and the same exit if there is one; and
when no reply in the window is fatal, the loop ends by leaving the loop with
every week of the window requested, the weeks after the `null` week
included. -/
theorem null_week_is_skipped_and_loop_goes_on (W : Int → Int)
    (server : Int → Int → Reply) (startYear startWeek endYear endWeek nullYear nullWeek : Int)
    (hW : ∀ y, W y = 52 ∨ W y = 53) (h1 : 1 ≤ startWeek) (h2 : startWeek ≤ W startYear)
    (hnull : fetchAiringSchedule (server nullYear nullWeek) = .ok none) :
    (∀ body, fetchAiringSchedule (.response ⟨false, 404, body⟩) = .ok none) ∧
      (∀ lists, fetchStep lists none = lists ∧ fetchStep lists (some []) = lists) ∧
      (∀ fuel year week st,
        fetchLoop W server endYear endWeek fuel year week st
          = fetchLoop W
              (fun y w => if y = nullYear ∧ w = nullWeek then okReply [] else server y w)
              endYear endWeek fuel year week st) ∧
      ((∀ y w, 1 ≤ w → w ≤ W y → ptrLe (startYear, startWeek) (y, w) →
          ptrLe (y, w) (endYear, endWeek) → isFatal (server y w) = false) →
        ∀ fuel, (53 * (endYear - startYear) + 54 - startWeek).toNat + 1 ≤ fuel →
          ∃ st, fetchLoop W server endYear endWeek fuel startYear startWeek ⟨[], []⟩ = .done st ∧
            ∀ y w, 1 ≤ w → w ≤ W y → ptrLe (startYear, startWeek) (y, w) →
              ptrLe (y, w) (endYear, endWeek) → (y, w) ∈ st.fetched) := by
  refine ⟨fun body => rfl, fun lists => ⟨rfl, fetchStep_nil lists⟩, ?_, ?_⟩
  · intro fuel year week st
    apply fetchLoop_congr
    intro lists y w
    by_cases h : y = nullYear ∧ w = nullWeek
    · obtain ⟨rfl, rfl⟩ := h
      simp only [and_self, if_true, hnull]
      simp [okReply, fetchAiringSchedule, Except.map, fetchStep]
    · simp only [h, if_false]
  · intro hok fuel hf
    obtain ⟨l, hrun, -, hmem⟩ :=
      fetchLoop_from W server endYear endWeek hW
        (53 * (endYear - startYear) + 54 - startWeek).toNat startYear startWeek h1 h2
        (by omega)
    have hl : ∀ p ∈ l, isFatal (server p.1 p.2) = false := by
      intro p hp
      obtain ⟨a, b, c, d⟩ := (hmem p).1 hp
      exact hok p.1 p.2 a b c d
    refine ⟨_, by rw [hrun _ fuel hf, runWeeks_of_not_fatal server l _ hl], ?_⟩
    intro y w a b c d
    simpa using (hmem (y, w)).2 ⟨a, b, c, d⟩

/-- A window of three weeks whose second week answers 404: the loop requests
all three, week 3 included, and keeps the record of the other two. -/
theorem null_week_is_skipped_and_loop_goes_on_witness :
    ∃ st, fetchLoop (fun _ => 52) gapServer 2024 3 60 2024 1 ⟨[], []⟩ = .done st ∧
      ∀ y w, 1 ≤ w → w ≤ (fun _ => 52) y → ptrLe (2024, 1) (y, w) →
        ptrLe (y, w) (2024, 3) → (y, w) ∈ st.fetched :=
  (null_week_is_skipped_and_loop_goes_on (fun _ => 52) gapServer 2024 1 2024 3 2024 2
      (fun _ => Or.inl rfl) (by decide) (by decide) rfl).2.2.2
    (fun y w _ _ _ _ => by
      by_cases h : w = 2 <;> simp [gapServer, h, isFatal, fetchAiringSchedule, errorReply, okReply])
    60 (by decide)

/-! ## The write of the override file (C8) -/

/-- C8: lines 100-125 always run to their end, and the override file is
written, with the list left by the override pass, if and only if the
serialized form of that list differs from the serialized form of the list as
loaded. Nothing is written when no override is overdue at its turn and none is
finished. The file is written when the advance step changes at least one
overdue override or the filter removes at least one override; the advance step
does change an overdue override whenever its `episodeNumber` is a safe integer
or `past` moves its date. Whenever the fetch loop of a run with a token is
left, the run returns with exactly this write. -/
theorem override_file_written_iff_serialization_changed (past : Int → Nat → Bool → Int)
    (clock : Nat → Int) (dubs : List Entry) :
    (overrideStage past clock dubs).customDubs = overridePass past clock dubs ∧
      ((overrideStage past clock dubs).saved = some (overridePass past clock dubs) ↔
        jsonStringify (overridePass past clock dubs) ≠ jsonStringify dubs) ∧
      ((overrideStage past clock dubs).saved = none ↔
        jsonStringify (overridePass past clock dubs) = jsonStringify dubs) ∧
      ((∀ i d, dubs[i]? = some d →
          ¬ (ValidDate d.episodeDate ∧ d.episodeDate < clock i) ∧ ¬ Finished d) →
        (overrideStage past clock dubs).saved = none) ∧
      (((∃ i d, dubs[i]? = some d ∧ ValidDate d.episodeDate ∧ d.episodeDate < clock i ∧
            advanceDub past d ≠ d) ∨
          ∃ d ∈ advanceCustomDubs past clock dubs, FinishedNonzero d) →
        (overrideStage past clock dubs).saved = some (overridePass past clock dubs)) ∧
      (∀ i d, dubs[i]? = some d → ValidDate d.episodeDate → d.episodeDate < clock i →
        SafeInteger d.episodeNumber ∨ past d.episodeDate 1 false ≠ d.episodeDate →
        (overrideStage past clock dubs).saved = some (overridePass past clock dubs)) ∧
      ∀ (inp : Inputs) (fuel : Nat) (st : LoopState), tokenTruthy inp.token = true →
        fetchLoop inp.getWeeksInYear inp.server inp.weeks.endYear inp.weeks.endWeek fuel
          inp.weeks.startYear inp.weeks.startWeek ⟨[], []⟩ = .done st →
        fetchDubSchedule inp fuel = .returned
          ⟨st.fetched, st.airingLists ++ overridePass inp.past inp.clock inp.customDubs,
            (overrideStage inp.past inp.clock inp.customDubs).saved, []⟩ := by
  have hsaved := overrideStage_saved past clock dubs
  have hiff1 : (overrideStage past clock dubs).saved = some (overridePass past clock dubs) ↔
      jsonStringify (overridePass past clock dubs) ≠ jsonStringify dubs := by
    rw [hsaved]; split <;> simp_all
  have hiff2 : (overrideStage past clock dubs).saved = none ↔
      jsonStringify (overridePass past clock dubs) = jsonStringify dubs := by
    rw [hsaved]; split <;> simp_all
  have hchanged : overridePass past clock dubs ≠ dubs →
      (overrideStage past clock dubs).saved = some (overridePass past clock dubs) := by
    intro hne
    rw [hiff1]
    exact fun h => hne (jsonStringify_injective h)
  have hadv : (∃ i d, dubs[i]? = some d ∧ ValidDate d.episodeDate ∧ d.episodeDate < clock i ∧
      advanceDub past d ≠ d) → overridePass past clock dubs ≠ dubs := by
    rintro ⟨i, d, hd, hv, hlt, hne⟩ hself
    exact hne (((overridePass_eq_self_iff past clock dubs).1 hself).1 i d hd
      ((isOverdue_iff _ d).2 ⟨hv, hlt⟩))
  refine ⟨overrideStage_customDubs past clock dubs, hiff1, hiff2, ?_, ?_, ?_, ?_⟩
  · intro hnone
    rw [hiff2]
    congr 1
    have hloop : advanceLoop past clock 0 dubs = dubs := by
      rw [advanceLoop_eq_self_iff]
      intro i d hd hov
      exact absurd ((isOverdue_iff _ d).1 hov) (hnone i d hd).1
    rw [overridePass_eq_self_iff]
    refine ⟨(advanceLoop_eq_self_iff past clock dubs).1 hloop, ?_⟩
    intro d hd
    rw [advanceCustomDubs_eq_loop, hloop] at hd
    obtain ⟨i, hi⟩ := List.getElem?_of_mem hd
    rintro ⟨n, hn, -, hlt⟩
    exact (hnone i d hi).2 ⟨n, hn, hlt⟩
  · rintro (h | ⟨d, hd, hfin⟩)
    · exact hchanged (hadv h)
    · apply hchanged
      intro hself
      exact ((overridePass_eq_self_iff past clock dubs).1 hself).2 d hd hfin
  · intro i d hd hv hlt hor
    apply hchanged
    apply hadv
    refine ⟨i, d, hd, hv, hlt, ?_⟩
    rcases hor with h | h
    · exact advanceDub_ne_of_safe past d h
    · exact advanceDub_ne_of_shift past d h
  · intro inp fuel st htoken hloop
    rw [fetchDubSchedule_of_done inp fuel st htoken hloop, overrideStage_customDubs]

/-- The run on `overdueInputs`: the one override is overdue with a safe
episode number, it is advanced, and the file is written with the advanced
list. -/
theorem override_file_written_iff_serialization_changed_witness :
    (overrideStage overdueInputs.past overdueInputs.clock overdueInputs.customDubs).saved
        = some (overridePass overdueInputs.past overdueInputs.clock overdueInputs.customDubs) ∧
      fetchDubSchedule overdueInputs 2 = .returned
        ⟨[(2024, 1)],
          [⟨"r1", "Title", 1, none, 100, "aired"⟩] ++
            overridePass overdueInputs.past overdueInputs.clock overdueInputs.customDubs,
          (overrideStage overdueInputs.past overdueInputs.clock overdueInputs.customDubs).saved,
          []⟩ :=
  ⟨(override_file_written_iff_serialization_changed overdueInputs.past overdueInputs.clock
      overdueInputs.customDubs).2.2.2.2.2.1 0 ⟨"c1", "Custom", 5, some 12, 20, "upcoming"⟩ rfl
      (by decide) (by decide) (Or.inl (by decide)),
    (override_file_written_iff_serialization_changed overdueInputs.past overdueInputs.clock
      overdueInputs.customDubs).2.2.2.2.2.2 overdueInputs 2
      ⟨[(2024, 1)], [⟨"r1", "Title", 1, none, 100, "aired"⟩]⟩ rfl (by decide)⟩

/-! ## The change log of `fetchDubSchedule` (C9) -/

/-- C9 fails on the code: on the inputs of the spec example (empty prior
snapshot, no overrides, the single fetched record `r1`), the run returns with
`r1` as its only candidate and an empty change log. -/
theorem change_log_of_example_run_is_empty :
    fetchDubSchedule exampleInputs 2 = .returned
      ⟨[(2024, 1)], [⟨"r1", "Title", 1, none, 100, "aired"⟩], none, []⟩ := by
  decide

/-! ## `updateDubFeed` (C10) -/

/-- C10 fails on the code: for every schedule and every prior feed,
`updateDubFeed` ends by throwing a `ReferenceError` for `newEpisodes`; it
returns no change list. -/
theorem updateDubFeed_throws (optSchedule : Option (List Entry))
    (scheduleFile exactFeed : List Entry) :
    updateDubFeed optSchedule scheduleFile exactFeed
      = .error (.referenceError "newEpisodes") := by
  rfl

end AniSchedule
